import Mathlib

/-! # zai2api-go, image module (`src/image/image.go`)

A shallow embedding of the image module of the OpenAI-compatible proxy:
`parseModel`, `extractPrompt`, `generateImage`, `handleChatCompletions`,
`modelList` and `handleGetModel`, followed by the properties proved of them.

Conventions of the embedding.

* A Go `string` is a Lean `String`. The strings the module handles come out of
  `encoding/json` or are literals, so they are valid UTF-8, where the byte-wise
  `strings.Contains` / `strings.HasSuffix` agree with the rune-wise versions
  below.
* Code of Go's standard library and of gin that the module calls but that is not
  part of the repository is either written out from its documented behaviour
  (`strings.HasSuffix`, `strings.Contains`, the ASCII branch of
  `unicode.ToLower`, the one regular expression of the handler) or taken as a
  parameter (the non-ASCII case table of `unicode.ToLower`, `json.Marshal`, the
  HTTP transport, the clock).
* The iteration order of a Go map is unspecified: `parseModel` takes the order
  in which `ratioMap` is visited as an argument, and the theorems quantify over
  every permutation of the table.
* A handler is a function from what it reads of the request (the result of
  binding the body, the `Authorization` header, the route parameter) to a
  `Reply`, which records the response and the outbound calls made.
-/

namespace Image

/-! ## Strings -/

/-- Go `unicode.ToLower`: code points up to `MaxASCII` are handled inline
(`'A'..'Z'` are shifted by `'a' - 'A'`, the rest are returned unchanged), all
other code points go through the case table `To(LowerCase, r)` of the standard
library, here the parameter `caseTable`. -/
def unicodeToLower (caseTable : Char → Char) (r : Char) : Char :=
  if r.toNat ≤ 0x7F then
    if 'A'.toNat ≤ r.toNat ∧ r.toNat ≤ 'Z'.toNat then Char.ofNat (r.toNat + 32) else r
  else caseTable r

/-- Go `strings.ToLower`: every rune is mapped through `unicode.ToLower`. -/
def ToLower (caseTable : Char → Char) (s : String) : String :=
  ⟨s.data.map (unicodeToLower caseTable)⟩

/-- Go `strings.HasSuffix`. -/
def HasSuffix (s suffix : String) : Bool :=
  suffix.data.isSuffixOf s.data

/-- Search of `substr` at every position of `s`, left to right. -/
def containsAt (substr : List Char) : List Char → Bool
  | [] => substr.isEmpty
  | c :: rest => substr.isPrefixOf (c :: rest) || containsAt substr rest

/-- Go `strings.Contains`. -/
def Contains (s substr : String) : Bool :=
  containsAt substr.data s.data

/-! ## `parseModel` -/

/-- The `ratioMap` literal of `parseModel`, in the order of the source text. -/
def ratioMap : List (String × String) :=
  [ ("-1-1", "1:1"),
    ("-3-4", "3:4"),
    ("-4-3", "4:3"),
    ("-16-9", "16:9"),
    ("-9-16", "9:16"),
    ("-21-9", "21:9"),
    ("-9-21", "9:21") ]

/-- The loop `for suffix, r := range ratioMap { if HasSuffix(..) { ratio = r; break } }`
run over the entries in the order they are visited; `ratio` is the value the
variable holds before the loop. -/
def ratioLoop (modelLower : String) (ratio : String) : List (String × String) → String
  | [] => ratio
  | (suffix, r) :: rest =>
    if HasSuffix modelLower suffix then r else ratioLoop modelLower ratio rest

/-- Go `parseModel`; returns `(resolution, ratio)`. `order` is the order in
which the `range` over `ratioMap` visits the entries. -/
def parseModel (caseTable : Char → Char) (order : List (String × String))
    (model : String) : String × String :=
  let resolution :=
    if Contains model "2k" || Contains model "2K" then "2K" else "1K"
  let modelLower := ToLower caseTable model
  (resolution, ratioLoop modelLower "21:9" order)

/-! ## `extractPrompt` -/

/-- Go `OpenAIMessage`. -/
structure OpenAIMessage where
  Role : String
  Content : String
  deriving DecidableEq, Repr

/-- Go `OpenAIRequest`. -/
structure OpenAIRequest where
  Model : String
  Messages : List OpenAIMessage
  Stream : Bool
  deriving DecidableEq, Repr

/-- Go `extractPrompt`. -/
def extractPrompt : List OpenAIMessage → String
  | [] => ""
  | msg :: rest => if msg.Role = "user" then msg.Content else extractPrompt rest

/-! ## Data of the handlers -/

/-- The dynamic values stored in the `gin.H` maps of the module. -/
inductive Value where
  | str (s : String)
  | int (n : Int)
  deriving DecidableEq, Repr

/-- Go `gin.H`, that is `map[string]any`, as the key/value pairs of the literal. -/
abbrev H := List (String × Value)

/-- Go `m[key]`; `none` is the nil interface of a missing key. -/
def H.get (m : H) (key : String) : Option Value :=
  match m.find? (fun kv => kv.1 = key) with
  | some kv => some kv.2
  | none => none

/-- Go `ZAIRequest`. -/
structure ZAIRequest where
  Prompt : String
  Ratio : String
  Resolution : String
  RmLabelWatermark : Bool
  deriving DecidableEq, Repr

/-- The anonymous struct of `ZAIResponse.Data.Image`. -/
structure ZAIImage where
  ImageID : String
  Prompt : String
  Size : String
  Ratio : String
  Resolution : String
  ImageURL : String
  Status : String
  deriving DecidableEq, Repr

/-- The anonymous struct of `ZAIResponse.Data`. -/
structure ZAIData where
  Image : ZAIImage
  deriving DecidableEq, Repr

/-- Go `ZAIResponse`. -/
structure ZAIResponse where
  Code : Int
  Message : String
  Data : ZAIData
  Timestamp : Int
  deriving DecidableEq, Repr

/-- Go `OpenAIStreamChoice`; `FinishReason` is a `*string`, `none` is nil. -/
structure OpenAIStreamChoice where
  Index : Int
  Delta : H
  FinishReason : Option String
  deriving DecidableEq, Repr

/-- Go `OpenAIStreamResponse`. -/
structure OpenAIStreamResponse where
  ID : String
  Object : String
  Created : Int
  Model : String
  Choices : List OpenAIStreamChoice
  deriving DecidableEq, Repr

/-- The request `generateImage` hands to `client.Do`: method, URL, the headers
in the order they are set, and the body. -/
structure HTTPRequest where
  Method : String
  URL : String
  Header : List (String × String)
  Body : String
  deriving DecidableEq, Repr

/-- What the module takes from outside the repository: the standard library
functions that are not written out, the two outbound HTTP calls, the clock and
the order in which this run visits `ratioMap`. -/
structure Runtime where
  /-- Go `unicode.To(LowerCase, r)` on code points above `MaxASCII` -/
  caseTable : Char → Char
  /-- The order of `range ratioMap` in this run -/
  mapOrder : List (String × String)
  /-- Go `json.Marshal` of a `ZAIRequest` -/
  marshalRequest : ZAIRequest → String
  /-- Go `json.Marshal` of an `OpenAIStreamResponse` -/
  marshalChunk : OpenAIStreamResponse → String
  /-- Go `json.Unmarshal` into a `ZAIResponse` -/
  unmarshalResponse : String → Except String ZAIResponse
  /-- Go `client.Do` followed by `io.ReadAll` of the response body -/
  clientDo : HTTPRequest → Except String String
  /-- Go `client.Get` followed by `io.ReadAll` of the response body -/
  clientGet : String → Except String (List (Fin 256))
  /-- Go `http.DetectContentType` -/
  detectContentType : List (Fin 256) → String
  /-- Go `base64.StdEncoding.EncodeToString` -/
  encodeToString : List (Fin 256) → String
  /-- Go `time.Now().UnixNano()` at the read that builds the chunk id -/
  unixNano : Int
  /-- Go `time.Now().Unix()` at the read that builds the creation time -/
  unix : Int

/-- The constant `ZAIImageBaseURL`. -/
def ZAIImageBaseURL : String := "https://image.z.ai"

/-- The constant `GenerateAPI`. -/
def GenerateAPI : String := "https://image.z.ai/api/proxy/images/generate"

/-! ## `imageToBase64` and `generateImage` -/

/-- Go `imageToBase64`; returns the URLs fetched and `(base64Data, mimeType)` or
the error. -/
def imageToBase64 (rt : Runtime) (url : String) :
    List String × Except String (String × String) :=
  match rt.clientGet url with
  | .error err => ([url], .error err)
  | .ok data =>
    let mimeType := rt.detectContentType data
    let base64Data := rt.encodeToString data
    ([url], .ok (base64Data, mimeType))

/-- The request built by `generateImage`. -/
def generateRequest (rt : Runtime) (token prompt ratio resolution : String) : HTTPRequest :=
  let reqBody : ZAIRequest :=
    { Prompt := prompt, Ratio := ratio, Resolution := resolution, RmLabelWatermark := true }
  { Method := "POST"
    URL := GenerateAPI
    Header :=
      [ ("Content-Type", "application/json"),
        ("Accept", "text/event-stream"),
        ("Origin", ZAIImageBaseURL),
        ("Referer", ZAIImageBaseURL ++ "/"),
        ("User-Agent", "Mozilla/5.0 AppleWebKit/537.36 Chrome/143 Safari/537"),
        ("Cookie", "session=" ++ token) ]
    Body := rt.marshalRequest reqBody }

/-- Go `generateImage`; returns the requests sent and the decoded response or
the error. -/
def generateImage (rt : Runtime) (token prompt ratio resolution : String) :
    List HTTPRequest × Except String ZAIResponse :=
  let req := generateRequest rt token prompt ratio resolution
  match rt.clientDo req with
  | .error err => ([req], .error err)
  | .ok body =>
    match rt.unmarshalResponse body with
    | .error err => ([req], .error err)
    | .ok zaiResp => ([req], .ok zaiResp)

/-! ## The regular expression of the handler

`(?i)^Bearer\s+(.+)$` under Go's RE2 semantics: `(?i)` folds case, and the
letters b, e, a, r fold only to their ASCII upper case; `\s` is
`[\t\n\f\r ]`; `.` is any character but the line feed; without the `m`
flag `^` and `$` match only at the two ends of the text. Repetition is greedy
and the first alternative that leads to a match wins.

The header value comes from `net/http`, which ends a header line at a line feed
and so delivers no value that holds one. The expression reads a byte that is
not valid UTF-8 as the one rune U+FFFD, which only `.` matches, so a raw header
matches exactly when its decoded form does. -/

/-- The class `\s` of RE2. -/
def isSpace (c : Char) : Bool :=
  c = '\t' || c = '\n' || c = '\x0c' || c = '\r' || c = ' '

/-- A literal letter under `(?i)`: itself or its ASCII upper case. -/
def foldMatches (lit c : Char) : Bool :=
  c = lit || c = Char.ofNat (lit.toNat - 32)

/-- The literal `lit` under `(?i)` at the start of `s`; the rest of `s` after it. -/
def matchLiteral : List Char → List Char → Option (List Char)
  | [], s => some s
  | _ :: _, [] => none
  | l :: lit, c :: s => if foldMatches l c then matchLiteral lit s else none

/-- The part `(.+)$` at the start of `t`: all of `t`, when it is not empty and
holds no line feed. -/
def matchToken (t : List Char) : Option (List Char) :=
  if !t.isEmpty && !t.contains '\n' then some t else none

/-- The part `\s+(.+)$` at the start of `t`. After one white-space character
the greedy `\s+` first tries to take another one, and only when that leads to
no match it stops and leaves the rest to `(.+)$`. -/
def matchSpaces : List Char → Option (List Char)
  | [] => none
  | c :: rest =>
    if isSpace c then
      match matchSpaces rest with
      | some token => some token
      | none => matchToken rest
    else none

/-- Go `re.FindStringSubmatch(authHeader)` for the expression above: the whole
match and the group, or the empty (nil) slice. -/
def FindStringSubmatch (authHeader : String) : List String :=
  match matchLiteral "bearer".data authHeader.data with
  | none => []
  | some rest =>
    match matchSpaces rest with
    | none => []
    | some token => [authHeader, ⟨token⟩]

/-! ## `handleChatCompletions` -/

/-- What a handler did: the status and JSON body of `c.JSON`, or the headers set
with `c.Header` and the strings written with `c.Writer.WriteString` (status 200,
the status of a response that is written without setting one); and the outbound
calls made on the way. -/
structure Reply where
  status : Nat
  json : Option H
  header : List (String × String)
  written : List String
  requests : List HTTPRequest
  fetched : List String
  deriving DecidableEq, Repr

/-- Go `c.JSON(status, gin.H{"error": msg})` after the outbound calls `requests`
and `fetched`. -/
def errorReply (status : Nat) (msg : String) (requests : List HTTPRequest)
    (fetched : List String) : Reply :=
  { status := status, json := some [("error", Value.str msg)], header := [], written := [],
    requests := requests, fetched := fetched }

/-- The first chunk, `resp1` of the handler. -/
def contentChunk (rt : Runtime) (model imageMarkdown : String) : OpenAIStreamResponse :=
  { ID := "chatcmpl-" ++ toString rt.unixNano
    Object := "chat.completion.chunk"
    Created := rt.unix
    Model := model
    Choices :=
      [ { Index := 0
          Delta := [("role", Value.str "assistant"), ("content", Value.str imageMarkdown)]
          FinishReason := none } ] }

/-- The second chunk, `resp2` of the handler, built from `resp1`. -/
def terminalChunk (resp1 : OpenAIStreamResponse) (model : String) : OpenAIStreamResponse :=
  let finishReason := "stop"
  { ID := resp1.ID
    Object := "chat.completion.chunk"
    Created := resp1.Created
    Model := model
    Choices := [ { Index := 0, Delta := [], FinishReason := some finishReason } ] }

/-- Go `handleChatCompletions`. `bind` is the result of `c.ShouldBindJSON(&req)`
and `authHeader` that of `c.GetHeader("Authorization")`, the empty string when
the header is absent. -/
def handleChatCompletions (rt : Runtime) (bind : Except String OpenAIRequest)
    (authHeader : String) : Reply :=
  match bind with
  | .error err => errorReply 400 err [] []
  | .ok req =>
    if authHeader = "" then
      errorReply 401 "Missing Authorization header" [] []
    else
      let submatches := FindStringSubmatch authHeader
      if submatches.length < 2 then
        errorReply 401 "Invalid Authorization header format" [] []
      else
        let token := submatches.getD 1 ""
        let (resolution, ratio) := parseModel rt.caseTable rt.mapOrder req.Model
        let prompt := extractPrompt req.Messages
        if prompt = "" then
          errorReply 400 "No user message found" [] []
        else
          match generateImage rt token prompt ratio resolution with
          | (requests, .error err) => errorReply 500 err requests []
          | (requests, .ok zaiResp) =>
            if zaiResp.Code ≠ 200 then
              errorReply 500
                ("ZAI API error: " ++ zaiResp.Message ++ " (code: " ++ toString zaiResp.Code ++ ")")
                requests []
            else
              let imageURL := zaiResp.Data.Image.ImageURL
              if imageURL = "" then
                errorReply 500 "No image URL in response" requests []
              else
                match imageToBase64 rt imageURL with
                | (fetched, .error err) =>
                  errorReply 500 ("Failed to download image: " ++ err) requests fetched
                | (fetched, .ok (base64Data, mimeType)) =>
                  let imageMarkdown := "![image](data:" ++ mimeType ++ ";base64," ++ base64Data ++ ")"
                  let resp1 := contentChunk rt req.Model imageMarkdown
                  let resp2 := terminalChunk resp1 req.Model
                  { status := 200
                    json := none
                    header :=
                      [ ("Content-Type", "text/event-stream"),
                        ("Cache-Control", "no-cache"),
                        ("Connection", "keep-alive") ]
                    written :=
                      [ "data: " ++ rt.marshalChunk resp1 ++ "\n\n",
                        "data: " ++ rt.marshalChunk resp2 ++ "\n\n",
                        "data: [DONE]\n\n" ]
                    requests := requests
                    fetched := fetched }

/-! ## The model catalogue -/

/-- One entry of `modelList`. -/
def modelEntry (id : String) : H :=
  [ ("id", Value.str id), ("object", Value.str "model"),
    ("created", Value.int 1700000000), ("owned_by", Value.str "zhipu") ]

/-- Go `modelList` of the image module. -/
def modelList : List H :=
  [ modelEntry "gemini-3-pro-image-1k",
    modelEntry "gemini-3-pro-image-2k",
    modelEntry "gemini-3-pro-image-1k-1-1",
    modelEntry "gemini-3-pro-image-1k-3-4",
    modelEntry "gemini-3-pro-image-1k-4-3",
    modelEntry "gemini-3-pro-image-1k-16-9",
    modelEntry "gemini-3-pro-image-1k-9-16",
    modelEntry "gemini-3-pro-image-1k-21-9",
    modelEntry "gemini-3-pro-image-1k-9-21",
    modelEntry "gemini-3-pro-image-2k-1-1",
    modelEntry "gemini-3-pro-image-2k-3-4",
    modelEntry "gemini-3-pro-image-2k-4-3",
    modelEntry "gemini-3-pro-image-2k-16-9",
    modelEntry "gemini-3-pro-image-2k-9-16",
    modelEntry "gemini-3-pro-image-2k-21-9",
    modelEntry "gemini-3-pro-image-2k-9-21" ]

/-- The loop of `handleGetModel` over the entries still to visit. -/
def getModelLoop (modelID : String) : List H → Reply
  | [] =>
    { status := 404, json := some [("error", Value.str "Model not found")], header := [],
      written := [], requests := [], fetched := [] }
  | m :: rest =>
    if m.get "id" = some (Value.str modelID) then
      { status := 200, json := some m, header := [], written := [], requests := [],
        fetched := [] }
    else getModelLoop modelID rest

/-- Go `handleGetModel`; `modelID` is `c.Param("model")`. -/
def handleGetModel (modelID : String) : Reply :=
  getModelLoop modelID modelList

/-! ## Definitions used in the statements -/

/-- The entry of Go's `unicode.CaseRanges` for U+212A KELVIN SIGN,
`{0x212A, 0x212A, d{0, -8383, 0}}`: its lower case is U+006B, the letter k. It
is the one entry of the table the examples below go through; the other code
points are returned as they are. -/
def kelvinCaseTable (r : Char) : Char :=
  if r = Char.ofNat 0x212A then Char.ofNat (0x212A - 8383) else r

/-- A character is plain for a case table when it is ASCII or its lower case is
neither `k` nor `2`. -/
def plainRune (caseTable : Char → Char) (c : Char) : Prop :=
  0x7F < c.toNat → caseTable c ≠ 'k' ∧ caseTable c ≠ '2'

instance plainRuneDecidable (caseTable : Char → Char) (c : Char) :
    Decidable (plainRune caseTable c) := by
  unfold plainRune
  infer_instance

/-- The form of an accepted header in the words of the specification: the word
Bearer in any letter case (a word whose lower case is `bearer`), then at least
one white-space character (of the class `isSpace`), then a non-empty token. -/
def bearerForm (header : String) : Prop :=
  ∃ word spaces token : List Char,
    header.data = word ++ spaces ++ token ∧
    word.map Char.toLower = "bearer".data ∧
    spaces ≠ [] ∧ (∀ c ∈ spaces, isSpace c = true) ∧
    token ≠ []

/-- The same form with a token that holds no line feed: what the expression of
the handler matches on any string. It is the form `bearerForm` on every header
without a line feed. -/
def bearerLineForm (header : String) : Prop :=
  ∃ word spaces token : List Char,
    header.data = word ++ spaces ++ token ∧
    word.map Char.toLower = "bearer".data ∧
    spaces ≠ [] ∧ (∀ c ∈ spaces, isSpace c = true) ∧
    token ≠ [] ∧ '\n' ∉ token

/-- The credential the handler takes from an accepted header: `matches[1]`. -/
def tokenOf (authHeader : String) : String :=
  (FindStringSubmatch authHeader).getD 1 ""

/-- The call of `generateImage` the handler makes for a request and a header. -/
def upstreamCall (rt : Runtime) (req : OpenAIRequest) (authHeader : String) :
    List HTTPRequest × Except String ZAIResponse :=
  generateImage rt (tokenOf authHeader) (extractPrompt req.Messages)
    (parseModel rt.caseTable rt.mapOrder req.Model).2
    (parseModel rt.caseTable rt.mapOrder req.Model).1

/-- An upstream response with the given code, message and image URL. -/
def sampleResponse (code : Int) (message imageURL : String) : ZAIResponse :=
  { Code := code
    Message := message
    Data := { Image := { ImageID := "img-1", Prompt := "", Size := "", Ratio := "",
                         Resolution := "", ImageURL := imageURL, Status := "" } }
    Timestamp := 1700000000 }

/-- A runtime for the examples: the upstream call decodes to `upstream`, the
image download yields `image`, the detected type is `image/png`, and the
encoders are stand-ins that write the fields one after the other. -/
def sampleRuntime (upstream : Except String ZAIResponse)
    (image : Except String (List (Fin 256))) : Runtime :=
  { caseTable := kelvinCaseTable
    mapOrder := ratioMap
    marshalRequest := fun r => r.Prompt ++ "|" ++ r.Ratio ++ "|" ++ r.Resolution
    marshalChunk := fun c =>
      c.ID ++ "|" ++ c.Model ++ "|" ++
        String.join (c.Choices.map fun ch =>
          String.join (ch.Delta.map fun kv => kv.1 ++ ",") ++ "|" ++ ch.FinishReason.getD "null")
    unmarshalResponse := fun _ => upstream
    clientDo := fun _ => .ok "body"
    clientGet := fun _ => image
    detectContentType := fun _ => "image/png"
    encodeToString := fun data => String.join (data.map fun b => toString b.val)
    unixNano := 1700000000123456789
    unix := 1700000000 }

/-- A chat request for `gemini-3-pro-image-2k-9-16` with the given messages. -/
def sampleRequest (messages : List OpenAIMessage) : OpenAIRequest :=
  { Model := "gemini-3-pro-image-2k-9-16", Messages := messages, Stream := true }

/-- The identifiers advertised by `modelList`: the string under `id` of every
entry. -/
def catalogIDs : List String :=
  modelList.filterMap fun m =>
    match m.get "id" with
    | some (Value.str id) => some id
    | _ => none

/-! ## Lemmas on the string functions -/

theorem hasSuffix_iff (s suffix : String) :
    HasSuffix s suffix = true ↔ suffix.data <:+ s.data := by
  unfold HasSuffix
  exact List.isSuffixOf_iff_suffix

theorem containsAt_iff (substr s : List Char) :
    containsAt substr s = true ↔ substr <:+: s := by
  induction s with
  | nil =>
    cases substr <;> simp [containsAt]
  | cons c rest ih =>
    simp only [containsAt, Bool.or_eq_true, ih, List.infix_cons_iff, List.isPrefixOf_iff_prefix]

theorem contains_iff (s substr : String) :
    Contains s substr = true ↔ substr.data <:+: s.data :=
  containsAt_iff substr.data s.data

/-- No marker of `ratioMap` is a suffix of another one. -/
theorem ratioMap_no_nested :
    ∀ e₁ ∈ ratioMap, ∀ e₂ ∈ ratioMap, e₁.1.data.isSuffixOf e₂.1.data = true → e₁ = e₂ := by
  decide

/-- A string ends with at most one marker of `ratioMap`. -/
theorem ratioMap_exclusive (s : String) (e₁ e₂ : String × String)
    (h₁ : e₁ ∈ ratioMap) (h₂ : e₂ ∈ ratioMap)
    (m₁ : HasSuffix s e₁.1 = true) (m₂ : HasSuffix s e₂.1 = true) : e₁ = e₂ := by
  rw [hasSuffix_iff] at m₁ m₂
  rcases Nat.le_total e₁.1.data.length e₂.1.data.length with hle | hle
  · have hs := List.suffix_of_suffix_length_le m₁ m₂ hle
    exact ratioMap_no_nested e₁ h₁ e₂ h₂ (List.isSuffixOf_iff_suffix.mpr hs)
  · have hs := List.suffix_of_suffix_length_le m₂ m₁ hle
    exact (ratioMap_no_nested e₂ h₂ e₁ h₁ (List.isSuffixOf_iff_suffix.mpr hs)).symm

/-- The loop ends with the ratio of an entry it visited whose marker matches, or
with the initial value when no visited marker matches. -/
theorem ratioLoop_cases (modelLower ratio : String) (order : List (String × String)) :
    (∃ e ∈ order, HasSuffix modelLower e.1 = true ∧ ratioLoop modelLower ratio order = e.2) ∨
    ((∀ e ∈ order, HasSuffix modelLower e.1 = false) ∧
      ratioLoop modelLower ratio order = ratio) := by
  induction order with
  | nil => right; simp [ratioLoop]
  | cons e rest ih =>
    obtain ⟨suffix, r⟩ := e
    by_cases hm : HasSuffix modelLower suffix = true
    · left
      exact ⟨(suffix, r), List.mem_cons_self _ _, hm, by simp [ratioLoop, hm]⟩
    · have hm' : HasSuffix modelLower suffix = false := by simpa using hm
      rcases ih with ⟨e, he, hme, hr⟩ | ⟨hall, hr⟩
      · left
        exact ⟨e, List.mem_cons_of_mem _ he, hme, by simp [ratioLoop, hm', hr]⟩
      · right
        refine ⟨?_, by simp [ratioLoop, hm', hr]⟩
        intro e he
        rcases List.mem_cons.mp he with rfl | he
        · exact hm'
        · exact hall e he

/-- Whatever the order of the visit, the loop over the whole table ends with the
ratio of the marker the string ends with. -/
theorem ratioLoop_of_match (modelLower : String) (order : List (String × String))
    (hperm : order.Perm ratioMap) (e : String × String) (he : e ∈ ratioMap)
    (hm : HasSuffix modelLower e.1 = true) :
    ratioLoop modelLower "21:9" order = e.2 := by
  rcases ratioLoop_cases modelLower "21:9" order with ⟨e', he', hm', hr⟩ | ⟨hall, _⟩
  · have := ratioMap_exclusive modelLower e' e (hperm.mem_iff.mp he') he hm' hm
    rw [hr, this]
  · have := hall e (hperm.mem_iff.mpr he)
    rw [hm] at this
    cases this

/-- Whatever the order of the visit, the loop over the whole table keeps the
default when the string ends with no marker. -/
theorem ratioLoop_of_no_match (modelLower : String) (order : List (String × String))
    (hperm : order.Perm ratioMap)
    (hno : ∀ e ∈ ratioMap, HasSuffix modelLower e.1 = false) :
    ratioLoop modelLower "21:9" order = "21:9" := by
  rcases ratioLoop_cases modelLower "21:9" order with ⟨e', he', hm', _⟩ | ⟨_, hr⟩
  · have := hno e' (hperm.mem_iff.mp he')
    rw [hm'] at this
    cases this
  · exact hr

/-- The loop gives the same ratio for any two orders of the visit. -/
theorem ratioLoop_order_irrelevant (modelLower : String) (order₁ order₂ : List (String × String))
    (h₁ : order₁.Perm ratioMap) (h₂ : order₂.Perm ratioMap) :
    ratioLoop modelLower "21:9" order₁ = ratioLoop modelLower "21:9" order₂ := by
  by_cases h : ∃ e ∈ ratioMap, HasSuffix modelLower e.1 = true
  · obtain ⟨e, he, hm⟩ := h
    rw [ratioLoop_of_match modelLower order₁ h₁ e he hm,
      ratioLoop_of_match modelLower order₂ h₂ e he hm]
  · have hno : ∀ e ∈ ratioMap, HasSuffix modelLower e.1 = false := by
      intro e he
      by_contra hc
      exact h ⟨e, he, by simpa using hc⟩
    rw [ratioLoop_of_no_match modelLower order₁ h₁ hno,
      ratioLoop_of_no_match modelLower order₂ h₂ hno]

/-! ## `parseModel`: the aspect ratio -/

theorem asciiLower_marker : ∀ n : Fin 128, ∀ d ∈ "-0123456789".data,
    ((if 'A'.toNat ≤ (Char.ofNat n.val).toNat ∧ (Char.ofNat n.val).toNat ≤ 'Z'.toNat
        then Char.ofNat ((Char.ofNat n.val).toNat + 32) else Char.ofNat n.val) = d ↔
      Char.ofNat n.val = d) := by
  decide

/-- A character whose lower case is a hyphen or a digit is that hyphen or digit,
when the case table sends it to no such character. -/
theorem unicodeToLower_marker (caseTable : Char → Char) (c : Char)
    (h : 0x7F < c.toNat → caseTable c ∉ "-0123456789".data)
    (d : Char) (hd : d ∈ "-0123456789".data) :
    unicodeToLower caseTable c = d ↔ c = d := by
  by_cases hc : c.toNat ≤ 0x7F
  · have := asciiLower_marker ⟨c.toNat, by omega⟩ d hd
    simp only [Char.ofNat_toNat] at this
    simpa [unicodeToLower, hc] using this
  · have hgt : 0x7F < c.toNat := by omega
    have hd' : d.toNat ≤ 0x7F := by
      revert d
      decide
    have h₁ : caseTable c ≠ d := fun heq => h hgt (heq ▸ hd)
    have h₂ : c ≠ d := by
      rintro rfl
      omega
    simp [unicodeToLower, hc, h₁, h₂]

theorem isPrefixOf_map (f : Char → Char) (l s : List Char)
    (h : ∀ c ∈ s, ∀ d ∈ l, (f c = d ↔ c = d)) :
    l.isPrefixOf (s.map f) = l.isPrefixOf s := by
  induction l generalizing s with
  | nil => simp [List.isPrefixOf]
  | cons d l ih =>
    cases s with
    | nil => simp [List.isPrefixOf]
    | cons c s =>
      have hcd := h c (List.mem_cons_self _ _) d (List.mem_cons_self _ _)
      have ih' := ih s (fun c' hc' d' hd' =>
        h c' (List.mem_cons_of_mem _ hc') d' (List.mem_cons_of_mem _ hd'))
      simp only [List.map_cons, List.isPrefixOf, ih']
      congr 1
      rw [Bool.eq_iff_iff, beq_iff_eq, beq_iff_eq, eq_comm, hcd, eq_comm]

theorem isSuffixOf_map (f : Char → Char) (l s : List Char)
    (h : ∀ c ∈ s, ∀ d ∈ l, (f c = d ↔ c = d)) :
    l.isSuffixOf (s.map f) = l.isSuffixOf s := by
  unfold List.isSuffixOf
  rw [← List.map_reverse]
  exact isPrefixOf_map f l.reverse s.reverse
    (fun c hc d hd => h c (List.mem_reverse.mp hc) d (List.mem_reverse.mp hd))

theorem ratioMap_marker_runes : ∀ e ∈ ratioMap, ∀ d ∈ e.1.data, d ∈ "-0123456789".data := by
  decide

/-- Lower-casing does not change which marker an identifier ends with, when the
case table sends no character of the identifier to a hyphen or a digit. -/
theorem hasSuffix_toLower (caseTable : Char → Char) (model : String)
    (h : ∀ c ∈ model.data, 0x7F < c.toNat → caseTable c ∉ "-0123456789".data)
    (e : String × String) (he : e ∈ ratioMap) :
    HasSuffix (ToLower caseTable model) e.1 = HasSuffix model e.1 := by
  unfold HasSuffix ToLower
  exact isSuffixOf_map (unicodeToLower caseTable) e.1.data model.data
    (fun c hc d hd => unicodeToLower_marker caseTable c (h c hc) d
      (ratioMap_marker_runes e he d hd))

/-- C1. For every model identifier and every order in which `ratioMap` is
visited (every permutation of the table): the ratio returned is the table entry
of each marker the lower-cased identifier ends with; it is `21:9` when the
lower-cased identifier ends with none of the seven markers; no string ends with
two different markers; the result of `parseModel` is the same for any two
orders of the visit; and the lower-cased identifier ends with a marker exactly
when the identifier itself does, as long as the case table sends no character
of the identifier to a hyphen or a digit (no lower-case mapping of Unicode
does). -/
theorem parseModel_ratio (caseTable : Char → Char) (order : List (String × String))
    (hperm : order.Perm ratioMap) (model : String) :
    (∀ e ∈ ratioMap, HasSuffix (ToLower caseTable model) e.1 = true →
        (parseModel caseTable order model).2 = e.2) ∧
    ((∀ e ∈ ratioMap, HasSuffix (ToLower caseTable model) e.1 = false) →
        (parseModel caseTable order model).2 = "21:9") ∧
    (∀ (s : String) (e₁ e₂ : String × String), e₁ ∈ ratioMap → e₂ ∈ ratioMap →
        HasSuffix s e₁.1 = true → HasSuffix s e₂.1 = true → e₁ = e₂) ∧
    (∀ order₂ : List (String × String), order₂.Perm ratioMap →
        parseModel caseTable order₂ model = parseModel caseTable order model) ∧
    ((∀ c ∈ model.data, 0x7F < c.toNat → caseTable c ∉ "-0123456789".data) →
        ∀ e ∈ ratioMap, HasSuffix (ToLower caseTable model) e.1 = HasSuffix model e.1) := by
  refine ⟨?_, ?_, ?_, ?_, hasSuffix_toLower caseTable model⟩
  · intro e he hm
    exact ratioLoop_of_match (ToLower caseTable model) order hperm e he hm
  · intro hno
    exact ratioLoop_of_no_match (ToLower caseTable model) order hperm hno
  · intro s e₁ e₂ h₁ h₂ m₁ m₂
    exact ratioMap_exclusive s e₁ e₂ h₁ h₂ m₁ m₂
  · intro order₂ h₂
    simp only [parseModel]
    rw [ratioLoop_order_irrelevant (ToLower caseTable model) order₂ order h₂ hperm]

/-- C1 at the two identifiers of the specification, with the table visited in
reverse order: `gemini-3-pro-image-2k-9-16` ends with `-9-16` and decodes to
`9:16`; `gemini-3-pro-image-1k` ends with no marker and decodes to `21:9`. -/
theorem parseModel_ratio_witness :
    ratioMap.reverse.Perm ratioMap ∧
    (parseModel id ratioMap.reverse "gemini-3-pro-image-2k-9-16").2 = "9:16" ∧
    (parseModel id ratioMap.reverse "gemini-3-pro-image-1k").2 = "21:9" :=
  ⟨List.reverse_perm _,
    (parseModel_ratio id ratioMap.reverse (List.reverse_perm _)
      "gemini-3-pro-image-2k-9-16").1 ("-9-16", "9:16") (by decide) (by decide),
    (parseModel_ratio id ratioMap.reverse (List.reverse_perm _)
      "gemini-3-pro-image-1k").2.1 (by decide)⟩

/-! ## `parseModel`: the resolution -/

/-- On the ASCII range `unicode.ToLower` yields `k` only from `k` and `K`, and `2`
only from `2`. -/
theorem asciiLower_facts : ∀ n : Fin 128,
    ((if 'A'.toNat ≤ (Char.ofNat n.val).toNat ∧ (Char.ofNat n.val).toNat ≤ 'Z'.toNat
        then Char.ofNat ((Char.ofNat n.val).toNat + 32) else Char.ofNat n.val) = 'k' ↔
      (Char.ofNat n.val = 'k' ∨ Char.ofNat n.val = 'K')) ∧
    ((if 'A'.toNat ≤ (Char.ofNat n.val).toNat ∧ (Char.ofNat n.val).toNat ≤ 'Z'.toNat
        then Char.ofNat ((Char.ofNat n.val).toNat + 32) else Char.ofNat n.val) = '2' ↔
      Char.ofNat n.val = '2') := by
  decide

theorem unicodeToLower_plain (caseTable : Char → Char) (c : Char)
    (h : plainRune caseTable c) :
    (unicodeToLower caseTable c = 'k' ↔ (c = 'k' ∨ c = 'K')) ∧
    (unicodeToLower caseTable c = '2' ↔ c = '2') := by
  by_cases hc : c.toNat ≤ 0x7F
  · have := asciiLower_facts ⟨c.toNat, by omega⟩
    simp only [Char.ofNat_toNat] at this
    simpa [unicodeToLower, hc] using this
  · have hgt : 0x7F < c.toNat := by omega
    have hk : c ≠ 'k' := by rintro rfl; revert hgt; decide
    have hK : c ≠ 'K' := by rintro rfl; revert hgt; decide
    have h2 : c ≠ '2' := by rintro rfl; revert hgt; decide
    obtain ⟨h₁, h₂⟩ := h hgt
    simp [unicodeToLower, hc, h₁, h₂, hk, hK, h2]

theorem containsAt_cons (substr : List Char) (c : Char) (rest : List Char) :
    containsAt substr (c :: rest) = (substr.isPrefixOf (c :: rest) || containsAt substr rest) :=
  rfl

theorem containsAt_2k_map (caseTable : Char → Char) (l : List Char)
    (h : ∀ c ∈ l, plainRune caseTable c) :
    containsAt "2k".data (l.map (unicodeToLower caseTable)) =
      (containsAt "2k".data l || containsAt "2K".data l) := by
  induction l with
  | nil => rfl
  | cons a rest ih =>
    have ih' := ih (fun c hc => h c (List.mem_cons_of_mem _ hc))
    have ha := unicodeToLower_plain caseTable a (h a (List.mem_cons_self _ _))
    cases rest with
    | nil =>
      simp [containsAt, List.isPrefixOf]
    | cons b rest' =>
      have hb := unicodeToLower_plain caseTable b
        (h b (List.mem_cons_of_mem _ (List.mem_cons_self _ _)))
      simp only [List.map_cons] at ih' ⊢
      rw [containsAt_cons _ (unicodeToLower caseTable a), ih', containsAt_cons _ a,
        containsAt_cons _ a]
      rw [Bool.eq_iff_iff]
      simp only [List.isPrefixOf, Bool.or_eq_true, Bool.and_eq_true, beq_iff_eq, Bool.and_true]
      have e2 : ('2' = unicodeToLower caseTable a) ↔ '2' = a := by
        rw [eq_comm, ha.2, eq_comm]
      have ek : ('k' = unicodeToLower caseTable b) ↔ ('k' = b ∨ 'K' = b) := by
        constructor
        · intro hk
          rcases hb.1.mp hk.symm with h | h
          · exact Or.inl h.symm
          · exact Or.inr h.symm
        · intro hk
          exact (hb.1.mpr (hk.elim (fun h => Or.inl h.symm) (fun h => Or.inr h.symm))).symm
      rw [e2, ek]
      generalize containsAt ['2', 'k'] (b :: rest') = x
      generalize containsAt ['2', 'K'] (b :: rest') = y
      generalize ('2' = a) = p
      generalize ('k' = b) = q
      generalize ('K' = b) = r
      constructor
      · rintro (⟨hp, hq | hr⟩ | hx | hy)
        · exact Or.inl (Or.inl ⟨hp, hq⟩)
        · exact Or.inr (Or.inl ⟨hp, hr⟩)
        · exact Or.inl (Or.inr hx)
        · exact Or.inr (Or.inr hy)
      · rintro ((⟨hp, hq⟩ | hx) | (⟨hp, hr⟩ | hy))
        · exact Or.inl ⟨hp, Or.inl hq⟩
        · exact Or.inr (Or.inl hx)
        · exact Or.inl ⟨hp, Or.inr hr⟩
        · exact Or.inr (Or.inr hy)

theorem contains_2k_toLower (caseTable : Char → Char) (model : String)
    (h : ∀ c ∈ model.data, plainRune caseTable c) :
    Contains (ToLower caseTable model) "2k" = (Contains model "2k" || Contains model "2K") :=
  containsAt_2k_map caseTable model.data h

/-- C2, as the code has it. For every model identifier, whatever the case table
and the order of the visit of `ratioMap`: the resolution is `2K` exactly when
the identifier contains the digit 2 directly followed by the ASCII letter `k`
or `K`, and `1K` exactly when it does not. When no character of the identifier
outside ASCII has `k` or `2` as its lower case, this is the same as: `2K` when
the lower-cased identifier contains `2k`, else `1K`; and two such identifiers
with the same lower-cased form decode to the same resolution. -/
theorem parseModel_resolution (caseTable : Char → Char) (order : List (String × String))
    (model : String) :
    ((parseModel caseTable order model).1 = "2K" ↔
        ("2k".data <:+: model.data ∨ "2K".data <:+: model.data)) ∧
    ((parseModel caseTable order model).1 = "1K" ↔
        ¬ ("2k".data <:+: model.data ∨ "2K".data <:+: model.data)) ∧
    ((∀ c ∈ model.data, plainRune caseTable c) →
        (parseModel caseTable order model).1 =
          if Contains (ToLower caseTable model) "2k" = true then "2K" else "1K") ∧
    (∀ model₂ : String, (∀ c ∈ model.data, plainRune caseTable c) →
        (∀ c ∈ model₂.data, plainRune caseTable c) →
        ToLower caseTable model₂ = ToLower caseTable model →
        (parseModel caseTable order model₂).1 = (parseModel caseTable order model).1) := by
  have key : ∀ m : String, (Contains m "2k" || Contains m "2K") = true ↔
      ("2k".data <:+: m.data ∨ "2K".data <:+: m.data) := by
    intro m
    rw [Bool.or_eq_true, contains_iff, contains_iff]
  have low : ∀ m : String, (∀ c ∈ m.data, plainRune caseTable c) →
      (parseModel caseTable order m).1 =
        if Contains (ToLower caseTable m) "2k" = true then "2K" else "1K" := by
    intro m hm
    simp only [parseModel, contains_2k_toLower caseTable m hm]
  refine ⟨?_, ?_, low model, ?_⟩
  · rw [← key]
    simp only [parseModel]
    split <;> simp_all
  · rw [← key]
    simp only [parseModel]
    split <;> simp_all
  · intro model₂ h h₂ heq
    rw [low model h, low model₂ h₂, heq]

/-- C2 at the two identifiers of the specification and at an upper-case
spelling, under a case table that lower-cases the KELVIN SIGN to `k`. -/
theorem parseModel_resolution_witness :
    (parseModel kelvinCaseTable ratioMap "gemini-3-pro-image-2k-9-16").1 = "2K" ∧
    (parseModel kelvinCaseTable ratioMap "gemini-3-pro-image-1k").1 = "1K" ∧
    (parseModel kelvinCaseTable ratioMap "GEMINI-3-PRO-IMAGE-2K").1 =
      (parseModel kelvinCaseTable ratioMap "gemini-3-pro-image-2k").1 :=
  ⟨(parseModel_resolution kelvinCaseTable ratioMap "gemini-3-pro-image-2k-9-16").1.mpr
      (by decide),
    (parseModel_resolution kelvinCaseTable ratioMap "gemini-3-pro-image-1k").2.1.mpr
      (by decide),
    (parseModel_resolution kelvinCaseTable ratioMap "gemini-3-pro-image-2k").2.2.2
      "GEMINI-3-PRO-IMAGE-2K" (by decide) (by decide) (by decide)⟩

/-- C2 as stated fails at the identifier made of the digit 2 and U+212A KELVIN
SIGN: Go lower-cases it to `2k`, the lower-cased form contains `2k` and equals
that of the identifier `2k`, yet the resolution decoded is `1K`, while `2k`
decodes to `2K`. -/
theorem parseModel_resolution_kelvin :
    ToLower kelvinCaseTable "2\u212A" = "2k" ∧
    Contains (ToLower kelvinCaseTable "2\u212A") "2k" = true ∧
    (parseModel kelvinCaseTable ratioMap "2\u212A").1 = "1K" ∧
    (parseModel kelvinCaseTable ratioMap "2k").1 = "2K" := by
  decide

/-! ## `extractPrompt` -/

/-- The prompt is the content of the first message with role `user`. -/
theorem extractPrompt_of_split (before : List OpenAIMessage) (msg : OpenAIMessage)
    (after : List OpenAIMessage) (hbefore : ∀ m ∈ before, m.Role ≠ "user")
    (hrole : msg.Role = "user") :
    extractPrompt (before ++ msg :: after) = msg.Content := by
  induction before with
  | nil => simp [extractPrompt, hrole]
  | cons b rest ih =>
    have hb : b.Role ≠ "user" := hbefore b (List.mem_cons_self _ _)
    simp only [List.cons_append, extractPrompt, hb, if_false]
    exact ih (fun m hm => hbefore m (List.mem_cons_of_mem _ hm))

/-- The prompt is empty when no message has role `user`. -/
theorem extractPrompt_of_no_user (messages : List OpenAIMessage)
    (hnone : ∀ m ∈ messages, m.Role ≠ "user") : extractPrompt messages = "" := by
  induction messages with
  | nil => rfl
  | cons b rest ih =>
    have hb : b.Role ≠ "user" := hnone b (List.mem_cons_self _ _)
    simp only [extractPrompt, hb, if_false]
    exact ih (fun m hm => hnone m (List.mem_cons_of_mem _ hm))

/-- C3. For every list of messages: when the list splits into messages none of
which has role `user`, then a message with role exactly `user`, then any
messages, `extractPrompt` returns the content of that first `user` message
whatever follows it; and when no message has role `user` it returns the empty
string. -/
theorem extractPrompt_first_user (messages : List OpenAIMessage) :
    (∀ (before : List OpenAIMessage) (msg : OpenAIMessage) (after : List OpenAIMessage),
        messages = before ++ msg :: after →
        (∀ m ∈ before, m.Role ≠ "user") → msg.Role = "user" →
        extractPrompt messages = msg.Content) ∧
    ((∀ m ∈ messages, m.Role ≠ "user") → extractPrompt messages = "") := by
  constructor
  · intro before msg after hsplit hbefore hrole
    rw [hsplit]
    exact extractPrompt_of_split before msg after hbefore hrole
  · exact extractPrompt_of_no_user messages

/-- C3 at the two message lists of the specification: the first of two `user`
messages is the one returned, and a list with only an `assistant` message gives
the empty string; a role spelled `User` is not the role `user`. -/
theorem extractPrompt_first_user_witness :
    extractPrompt [⟨"system", "x"⟩, ⟨"user", "hello"⟩, ⟨"user", "world"⟩] = "hello" ∧
    extractPrompt [⟨"assistant", "x"⟩] = "" ∧
    extractPrompt [⟨"User", "x"⟩, ⟨"user", "y"⟩] = "y" :=
  ⟨(extractPrompt_first_user [⟨"system", "x"⟩, ⟨"user", "hello"⟩, ⟨"user", "world"⟩]).1
      [⟨"system", "x"⟩] ⟨"user", "hello"⟩ [⟨"user", "world"⟩] rfl (by decide) rfl,
    (extractPrompt_first_user [⟨"assistant", "x"⟩]).2 (by decide),
    (extractPrompt_first_user [⟨"User", "x"⟩, ⟨"user", "y"⟩]).1
      [⟨"User", "x"⟩] ⟨"user", "y"⟩ [] rfl (by decide) rfl⟩

/-! ## The `Authorization` header -/

theorem foldMatches_ascii : ∀ n : Fin 128, ∀ l ∈ "bear".data,
    (foldMatches l (Char.ofNat n.val) = true ↔ (Char.ofNat n.val).toLower = l) := by
  decide

/-- A letter of the word matches under `(?i)` exactly the characters whose lower
case it is. -/
theorem foldMatches_iff (l : Char) (hl : l ∈ "bear".data) (c : Char) :
    foldMatches l c = true ↔ c.toLower = l := by
  by_cases hc : c.toNat < 128
  · have := foldMatches_ascii ⟨c.toNat, hc⟩ l hl
    simpa only [Char.ofNat_toNat] using this
  · have hlow : c.toLower = c := by
      have : ¬ (c.toNat ≥ 65 ∧ c.toNat ≤ 90) := by omega
      simp [Char.toLower, this]
    have hne : ∀ d : Char, d.toNat < 128 → c ≠ d := by
      rintro d hd rfl
      exact hc hd
    have hl' : l = 'b' ∨ l = 'e' ∨ l = 'a' ∨ l = 'r' := by simpa using hl
    rw [hlow]
    rcases hl' with rfl | rfl | rfl | rfl <;>
      simp [foldMatches, hne _ (by decide : ('b').toNat < 128),
        hne _ (by decide : ('e').toNat < 128), hne _ (by decide : ('a').toNat < 128),
        hne _ (by decide : ('r').toNat < 128), hne _ (by decide : ('B').toNat < 128),
        hne _ (by decide : ('E').toNat < 128), hne _ (by decide : ('A').toNat < 128),
        hne _ (by decide : ('R').toNat < 128)]

theorem matchLiteral_iff (lit : List Char) (hlit : ∀ l ∈ lit, l ∈ "bear".data)
    (s rest : List Char) :
    matchLiteral lit s = some rest ↔
      ∃ word, s = word ++ rest ∧ word.map Char.toLower = lit := by
  induction lit generalizing s with
  | nil =>
    simp only [matchLiteral, Option.some.injEq, List.map_eq_nil_iff]
    constructor
    · rintro rfl; exact ⟨[], rfl, rfl⟩
    · rintro ⟨w, rfl, rfl⟩; rfl
  | cons l lit ih =>
    have ih' := ih (fun x hx => hlit x (List.mem_cons_of_mem _ hx))
    have hl := foldMatches_iff l (hlit l (List.mem_cons_self _ _))
    cases s with
    | nil =>
      simp only [matchLiteral]
      constructor
      · intro h; cases h
      · rintro ⟨w, hw, hm⟩
        cases w with
        | nil => simp at hm
        | cons a w => simp at hw
    | cons c s =>
      simp only [matchLiteral]
      by_cases hf : foldMatches l c = true
      · rw [if_pos hf, ih']
        constructor
        · rintro ⟨w, rfl, hm⟩
          exact ⟨c :: w, rfl, by simp [hm, (hl c).mp hf]⟩
        · rintro ⟨w, hw, hm⟩
          cases w with
          | nil => simp at hm
          | cons a w =>
            simp only [List.cons_append, List.cons.injEq] at hw
            simp only [List.map_cons, List.cons.injEq] at hm
            exact ⟨w, hw.2, hm.2⟩
      · rw [if_neg hf]
        constructor
        · intro h; cases h
        · rintro ⟨w, hw, hm⟩
          cases w with
          | nil => simp at hm
          | cons a w =>
            simp only [List.cons_append, List.cons.injEq] at hw
            simp only [List.map_cons, List.cons.injEq] at hm
            exact absurd ((hl c).mpr (hw.1 ▸ hm.1)) hf

theorem matchToken_iff (t token : List Char) :
    matchToken t = some token ↔ (token = t ∧ t ≠ [] ∧ '\n' ∉ t) := by
  unfold matchToken
  by_cases h : (!t.isEmpty && !t.contains '\n') = true
  · rw [if_pos h]
    simp only [Bool.and_eq_true, Bool.not_eq_true', List.isEmpty_eq_false,
      List.contains_eq_any_beq, List.any_eq_false, beq_iff_eq] at h
    constructor
    · rintro ⟨⟩
      exact ⟨rfl, h.1, fun hm => h.2 _ hm rfl⟩
    · rintro ⟨rfl, _, _⟩; rfl
  · rw [if_neg h]
    constructor
    · intro h'; cases h'
    rintro ⟨_, h₁, h₂⟩
    apply absurd _ h
    simp only [Bool.and_eq_true, Bool.not_eq_true', List.isEmpty_eq_false,
      List.contains_eq_any_beq, List.any_eq_false, beq_iff_eq]
    exact ⟨h₁, fun x hx hxe => h₂ (hxe ▸ hx)⟩

theorem matchSpaces_iff (t : List Char) :
    (∃ token, matchSpaces t = some token) ↔
      ∃ spaces token : List Char, t = spaces ++ token ∧ spaces ≠ [] ∧
        (∀ c ∈ spaces, isSpace c = true) ∧ token ≠ [] ∧ '\n' ∉ token := by
  induction t with
  | nil =>
    constructor
    · rintro ⟨token, h⟩; cases h
    · rintro ⟨spaces, token, h, hs, _, ht, _⟩
      have := List.append_eq_nil.mp h.symm
      exact absurd this.1 hs
  | cons c rest ih =>
    by_cases hc : isSpace c = true
    · constructor
      · rintro ⟨token, h⟩
        simp only [matchSpaces, hc, if_true] at h
        cases hr : matchSpaces rest with
        | some tok =>
          obtain ⟨spaces, token', h₁, _, h₃, h₄, h₅⟩ := ih.mp ⟨tok, hr⟩
          refine ⟨c :: spaces, token', by simp [h₁], by simp, ?_, h₄, h₅⟩
          intro x hx
          rcases List.mem_cons.mp hx with rfl | hx
          · exact hc
          · exact h₃ x hx
        | none =>
          rw [hr] at h
          obtain ⟨rfl, h₁, h₂⟩ := (matchToken_iff rest token).mp h
          exact ⟨[c], token, rfl, by simp, by simpa using hc, h₁, h₂⟩
      · rintro ⟨spaces, token, h, hs, hsp, ht, hn⟩
        cases spaces with
        | nil => exact absurd rfl hs
        | cons a spaces' =>
          simp only [List.cons_append, List.cons.injEq] at h
          obtain ⟨rfl, hrest⟩ := h
          simp only [matchSpaces, hc, if_true]
          cases hr : matchSpaces rest with
          | some tok => exact ⟨tok, rfl⟩
          | none =>
            by_cases hnil : spaces' = []
            · subst hnil
              simp only [List.nil_append] at hrest
              subst hrest
              exact ⟨rest, (matchToken_iff rest rest).mpr ⟨rfl, ht, hn⟩⟩
            · have := ih.mpr ⟨spaces', token, hrest, hnil,
                fun x hx => hsp x (List.mem_cons_of_mem _ hx), ht, hn⟩
              rw [hr] at this
              obtain ⟨tok, h⟩ := this
              cases h
    · constructor
      · rintro ⟨token, h⟩
        simp [matchSpaces, hc] at h
      · rintro ⟨spaces, token, h, hs, hsp, _, _⟩
        cases spaces with
        | nil => exact absurd rfl hs
        | cons a spaces' =>
          simp only [List.cons_append, List.cons.injEq] at h
          obtain ⟨rfl, _⟩ := h
          exact absurd (hsp c (List.mem_cons_self _ _)) hc

/-- The expression matches exactly the headers of the form with a token free of
line feeds. -/
theorem findStringSubmatch_iff (authHeader : String) :
    ¬ (FindStringSubmatch authHeader).length < 2 ↔ bearerLineForm authHeader := by
  unfold FindStringSubmatch bearerLineForm
  constructor
  · intro h
    cases hl : matchLiteral "bearer".data authHeader.data with
    | none => simp [hl] at h
    | some rest =>
      cases hs : matchSpaces rest with
      | none => simp [hl, hs] at h
      | some token =>
        obtain ⟨word, hw, hm⟩ :=
          (matchLiteral_iff "bearer".data (by decide) authHeader.data rest).mp hl
        obtain ⟨spaces, token', h₁, h₂, h₃, h₄, h₅⟩ := (matchSpaces_iff rest).mp ⟨token, hs⟩
        exact ⟨word, spaces, token', by rw [hw, h₁, List.append_assoc], hm, h₂, h₃, h₄, h₅⟩
  · rintro ⟨word, spaces, token, h, hm, h₂, h₃, h₄, h₅⟩
    rw [List.append_assoc] at h
    have hl := (matchLiteral_iff "bearer".data (by decide) authHeader.data
      (spaces ++ token)).mpr ⟨word, h, hm⟩
    obtain ⟨tok, hs⟩ := (matchSpaces_iff (spaces ++ token)).mpr
      ⟨spaces, token, rfl, h₂, h₃, h₄, h₅⟩
    simp [hl, hs]

/-- A header `Bearer`, one space, and a token that is not empty, does not start
with white space and holds no line feed: the group is the token. -/
theorem findStringSubmatch_bearer (t : String) (hne : t ≠ "")
    (hfirst : ∀ c ∈ t.data.head?, isSpace c = false) (hline : '\n' ∉ t.data) :
    FindStringSubmatch ("Bearer " ++ t) = ["Bearer " ++ t, t] := by
  obtain ⟨l⟩ := t
  cases l with
  | nil => exact absurd rfl hne
  | cons c rest =>
    have hc : isSpace c = false := hfirst c (by simp)
    have hs : matchSpaces (c :: rest) = none := by simp [matchSpaces, hc]
    have ht : matchToken (c :: rest) = some (c :: rest) :=
      (matchToken_iff _ _).mpr ⟨rfl, by simp, hline⟩
    have hl : matchLiteral "bearer".data ("Bearer " ++ (⟨c :: rest⟩ : String)).data =
        some (' ' :: c :: rest) := by
      simp [matchLiteral, foldMatches, String.data_append]
    have : matchSpaces (' ' :: c :: rest) = some (c :: rest) := by
      rw [matchSpaces, if_pos (by decide), hs, ht]
    unfold FindStringSubmatch
    simp only [hl, this]

theorem handle_status_401 (rt : Runtime) (req : OpenAIRequest) (authHeader : String) :
    (handleChatCompletions rt (.ok req) authHeader).status = 401 ↔
      (authHeader = "" ∨ (FindStringSubmatch authHeader).length < 2) := by
  unfold handleChatCompletions
  by_cases h1 : authHeader = ""
  · simp [h1, errorReply]
  · by_cases h2 : (FindStringSubmatch authHeader).length < 2
    · simp [h1, h2, errorReply]
    · simp only [h1, h2, if_false, false_or, iff_false]
      repeat' split
      all_goals simp [errorReply]

/-- A request reaches the upstream call when its header is accepted and its
prompt is not empty; the handler then continues from the result of the call. -/
theorem handle_after_upstream (rt : Runtime) (req : OpenAIRequest) (authHeader : String)
    (h1 : authHeader ≠ "") (h2 : ¬ (FindStringSubmatch authHeader).length < 2)
    (h3 : extractPrompt req.Messages ≠ "") :
    handleChatCompletions rt (.ok req) authHeader =
      match upstreamCall rt req authHeader with
      | (requests, .error err) => errorReply 500 err requests []
      | (requests, .ok zaiResp) =>
        if zaiResp.Code ≠ 200 then
          errorReply 500
            ("ZAI API error: " ++ zaiResp.Message ++ " (code: " ++ toString zaiResp.Code ++ ")")
            requests []
        else if zaiResp.Data.Image.ImageURL = "" then
          errorReply 500 "No image URL in response" requests []
        else
          match imageToBase64 rt zaiResp.Data.Image.ImageURL with
          | (fetched, .error err) =>
            errorReply 500 ("Failed to download image: " ++ err) requests fetched
          | (fetched, .ok (base64Data, mimeType)) =>
            { status := 200
              json := none
              header :=
                [ ("Content-Type", "text/event-stream"),
                  ("Cache-Control", "no-cache"),
                  ("Connection", "keep-alive") ]
              written :=
                [ "data: " ++ rt.marshalChunk (contentChunk rt req.Model
                    ("![image](data:" ++ mimeType ++ ";base64," ++ base64Data ++ ")")) ++ "\n\n",
                  "data: " ++ rt.marshalChunk (terminalChunk (contentChunk rt req.Model
                    ("![image](data:" ++ mimeType ++ ";base64," ++ base64Data ++ ")"))
                    req.Model) ++ "\n\n",
                  "data: [DONE]\n\n" ]
              requests := requests
              fetched := fetched } := by
  unfold handleChatCompletions upstreamCall tokenOf
  simp only [h1, h2, h3, if_false]

/-! ## `handleChatCompletions`: the credential -/

/-- The call of `generateImage` sends exactly the request it builds. -/
theorem generateImage_requests (rt : Runtime) (token prompt ratio resolution : String) :
    (generateImage rt token prompt ratio resolution).1 =
      [generateRequest rt token prompt ratio resolution] := by
  unfold generateImage
  simp only []
  repeat' split
  all_goals rfl

/-- The call of `imageToBase64` fetches exactly its URL. -/
theorem imageToBase64_fetched (rt : Runtime) (url : String) :
    (imageToBase64 rt url).1 = [url] := by
  unfold imageToBase64
  repeat' split
  all_goals rfl

/-- The upstream requests of a run that reaches the upstream call are those of
that call. -/
theorem handle_requests (rt : Runtime) (req : OpenAIRequest) (authHeader : String)
    (h1 : authHeader ≠ "") (h2 : ¬ (FindStringSubmatch authHeader).length < 2)
    (h3 : extractPrompt req.Messages ≠ "") :
    (handleChatCompletions rt (.ok req) authHeader).requests =
      (upstreamCall rt req authHeader).1 := by
  rw [handle_after_upstream rt req authHeader h1 h2 h3]
  generalize upstreamCall rt req authHeader = u
  obtain ⟨requests, res⟩ := u
  cases res with
  | error err => rfl
  | ok zaiResp =>
    simp only []
    repeat' split
    all_goals rfl

/-- On a header without a line feed the token of the form holds none either. -/
theorem bearerForm_iff_lineForm (header : String) (hline : '\n' ∉ header.data) :
    bearerForm header ↔ bearerLineForm header := by
  constructor
  · rintro ⟨word, spaces, token, h, hw, hs, hsp, ht⟩
    refine ⟨word, spaces, token, h, hw, hs, hsp, ht, ?_⟩
    intro hmem
    apply hline
    rw [h]
    exact List.mem_append_right _ hmem
  · rintro ⟨word, spaces, token, h, hw, hs, hsp, ht, _⟩
    exact ⟨word, spaces, token, h, hw, hs, hsp, ht⟩

/-- On a header without a line feed the expression matches exactly the headers
of the form of the specification. -/
theorem bearerForm_iff_find (header : String) (hline : '\n' ∉ header.data) :
    bearerForm header ↔ ¬ (FindStringSubmatch header).length < 2 := by
  rw [bearerForm_iff_lineForm header hline, findStringSubmatch_iff]

/-- C4. For every request whose body parses and every `Authorization` header
that holds no line feed (the headers `net/http` delivers): the handler responds
401 exactly when the header is empty or is not of the form: the word Bearer in
any letter case, at least one white-space character, a non-empty token. On any
string whatever it responds 401 exactly when the string is empty or is not of
that form with a token free of line feeds. When the header is `Bearer`, one
space, and a token `t` that is not empty, starts with a character that is not
white space and holds no line feed, the handler does not answer 401 and the
credential taken is exactly `t`; with a non-empty prompt the one upstream
request made is the one `generateImage` builds for `t`, whose cookie is
`session=` followed by `t`. -/
theorem handleChatCompletions_auth (rt : Runtime) (req : OpenAIRequest)
    (authHeader : String) :
    ('\n' ∉ authHeader.data →
        ((handleChatCompletions rt (.ok req) authHeader).status = 401 ↔
          (authHeader = "" ∨ ¬ bearerForm authHeader))) ∧
    ((handleChatCompletions rt (.ok req) authHeader).status = 401 ↔
        (authHeader = "" ∨ ¬ bearerLineForm authHeader)) ∧
    (∀ t : String, authHeader = "Bearer " ++ t → t ≠ "" →
        (∀ c ∈ t.data.head?, isSpace c = false) → '\n' ∉ t.data →
        (handleChatCompletions rt (.ok req) authHeader).status ≠ 401 ∧
        tokenOf authHeader = t ∧
        (extractPrompt req.Messages ≠ "" →
          (handleChatCompletions rt (.ok req) authHeader).requests =
              [generateRequest rt t (extractPrompt req.Messages)
                (parseModel rt.caseTable rt.mapOrder req.Model).2
                (parseModel rt.caseTable rt.mapOrder req.Model).1] ∧
          ∀ r ∈ (handleChatCompletions rt (.ok req) authHeader).requests,
            ("Cookie", "session=" ++ t) ∈ r.Header)) := by
  refine ⟨?_, ?_, ?_⟩
  · intro hline
    rw [handle_status_401, bearerForm_iff_find authHeader hline, not_not]
  · rw [handle_status_401, ← findStringSubmatch_iff, not_not]
  · intro t ht hne hfirst hline
    have hfind := findStringSubmatch_bearer t hne hfirst hline
    rw [← ht] at hfind
    have h1 : authHeader ≠ "" := by
      intro h
      have := congrArg String.length (ht.symm.trans h)
      simp only [String.length_append] at this
      have h7 : "Bearer ".length = 7 := by decide
      have h0 : "".length = 0 := by decide
      omega
    have h2 : ¬ (FindStringSubmatch authHeader).length < 2 := by simp [hfind]
    have htok : tokenOf authHeader = t := by simp [tokenOf, hfind]
    refine ⟨?_, htok, ?_⟩
    · rw [Ne, handle_status_401]
      simp [h1, h2]
    · intro h3
      have hreq : (handleChatCompletions rt (.ok req) authHeader).requests =
          [generateRequest rt t (extractPrompt req.Messages)
            (parseModel rt.caseTable rt.mapOrder req.Model).2
            (parseModel rt.caseTable rt.mapOrder req.Model).1] := by
        rw [handle_requests rt req authHeader h1 h2 h3, upstreamCall, htok,
          generateImage_requests]
      refine ⟨hreq, ?_⟩
      rw [hreq]
      intro r hr
      rw [List.mem_singleton.mp hr]
      simp [generateRequest]

/-- C4 at the headers of the specification, none of which holds a line feed: no
header and `Token abc` are answered 401; `Bearer abc` is of the form, is not
answered 401 and is accepted with credential `abc`, which goes out as the
session cookie of the one upstream request. -/
theorem handleChatCompletions_auth_witness :
    (handleChatCompletions (sampleRuntime (.ok (sampleResponse 200 "ok" "u")) (.ok []))
      (.ok (sampleRequest [⟨"user", "hello"⟩])) "").status = 401 ∧
    (handleChatCompletions (sampleRuntime (.ok (sampleResponse 200 "ok" "u")) (.ok []))
      (.ok (sampleRequest [⟨"user", "hello"⟩])) "Token abc").status = 401 ∧
    bearerForm "Bearer abc" ∧
    (handleChatCompletions (sampleRuntime (.ok (sampleResponse 200 "ok" "u")) (.ok []))
      (.ok (sampleRequest [⟨"user", "hello"⟩])) "Bearer abc").status ≠ 401 ∧
    tokenOf "Bearer abc" = "abc" ∧
    ∀ r ∈ (handleChatCompletions (sampleRuntime (.ok (sampleResponse 200 "ok" "u")) (.ok []))
        (.ok (sampleRequest [⟨"user", "hello"⟩])) "Bearer abc").requests,
      ("Cookie", "session=" ++ "abc") ∈ r.Header :=
  ⟨((handleChatCompletions_auth _ _ "").1 (by decide)).mpr (Or.inl rfl),
    ((handleChatCompletions_auth _ _ "Token abc").1 (by decide)).mpr
      (Or.inr fun h =>
        absurd ((bearerForm_iff_find "Token abc" (by decide)).mp h) (by decide)),
    ⟨"Bearer".data, [' '], "abc".data, by decide, by decide, by decide, by decide, by decide⟩,
    fun h401 =>
      (((handleChatCompletions_auth
        (sampleRuntime (.ok (sampleResponse 200 "ok" "u")) (.ok []))
        (sampleRequest [⟨"user", "hello"⟩]) "Bearer abc").1 (by decide)).mp h401).elim
        (fun hempty => absurd hempty (by decide))
        (fun hform => hform
          ⟨"Bearer".data, [' '], "abc".data, by decide, by decide, by decide, by decide,
            by decide⟩),
    ((handleChatCompletions_auth (sampleRuntime (.ok (sampleResponse 200 "ok" "u")) (.ok []))
      (sampleRequest [⟨"user", "hello"⟩]) "Bearer abc").2.2 "abc" (by decide) (by decide)
      (by decide) (by decide)).2.1,
    (((handleChatCompletions_auth _ _ "Bearer abc").2.2 "abc" (by decide) (by decide)
      (by decide) (by decide)).2.2 (by decide)).2⟩

/-! ## `handleChatCompletions`: the outcomes after the credential -/

/-- C8. For every request whose body parses and whose header is accepted: when
the extracted prompt is the empty string the handler answers 400 with the JSON
error body `No user message found`, makes no upstream request, fetches nothing
and writes no frame. The prompt is empty when no message has role `user`, and
when the first message with role `user` has empty content, whatever the later
messages hold. -/
theorem handleChatCompletions_empty_prompt (rt : Runtime) (req : OpenAIRequest)
    (authHeader : String) (h1 : authHeader ≠ "")
    (h2 : ¬ (FindStringSubmatch authHeader).length < 2) :
    (extractPrompt req.Messages = "" →
        (handleChatCompletions rt (.ok req) authHeader).status = 400 ∧
        (handleChatCompletions rt (.ok req) authHeader).json =
          some [("error", Value.str "No user message found")] ∧
        (handleChatCompletions rt (.ok req) authHeader).requests = [] ∧
        (handleChatCompletions rt (.ok req) authHeader).fetched = [] ∧
        (handleChatCompletions rt (.ok req) authHeader).written = []) ∧
    ((∀ m ∈ req.Messages, m.Role ≠ "user") → extractPrompt req.Messages = "") ∧
    (∀ (before : List OpenAIMessage) (msg : OpenAIMessage) (after : List OpenAIMessage),
        req.Messages = before ++ msg :: after → (∀ m ∈ before, m.Role ≠ "user") →
        msg.Role = "user" → msg.Content = "" → extractPrompt req.Messages = "") := by
  refine ⟨?_, extractPrompt_of_no_user req.Messages, ?_⟩
  · intro h3
    unfold handleChatCompletions
    simp [h1, h2, h3, errorReply]
  · intro before msg after hsplit hbefore hrole hcontent
    rw [hsplit, extractPrompt_of_split before msg after hbefore hrole, hcontent]

/-- C8 at the message list of the specification and at a list whose first
`user` message is empty and whose second is not: both are answered 400 without
an upstream request. -/
theorem handleChatCompletions_empty_prompt_witness :
    (handleChatCompletions (sampleRuntime (.ok (sampleResponse 200 "ok" "u")) (.ok []))
      (.ok (sampleRequest [⟨"assistant", "x"⟩])) "Bearer abc").status = 400 ∧
    (handleChatCompletions (sampleRuntime (.ok (sampleResponse 200 "ok" "u")) (.ok []))
      (.ok (sampleRequest [⟨"user", ""⟩, ⟨"user", "later"⟩])) "Bearer abc").status = 400 ∧
    (handleChatCompletions (sampleRuntime (.ok (sampleResponse 200 "ok" "u")) (.ok []))
      (.ok (sampleRequest [⟨"user", ""⟩, ⟨"user", "later"⟩])) "Bearer abc").requests = [] :=
  ⟨((handleChatCompletions_empty_prompt _ (sampleRequest [⟨"assistant", "x"⟩]) "Bearer abc"
      (by decide) (by decide)).1
      ((handleChatCompletions_empty_prompt
        (sampleRuntime (.ok (sampleResponse 200 "ok" "u")) (.ok []))
        (sampleRequest [⟨"assistant", "x"⟩]) "Bearer abc" (by decide) (by decide)).2.1
        (by decide))).1,
    ((handleChatCompletions_empty_prompt _
      (sampleRequest [⟨"user", ""⟩, ⟨"user", "later"⟩]) "Bearer abc"
      (by decide) (by decide)).1 (by decide)).1,
    ((handleChatCompletions_empty_prompt _
      (sampleRequest [⟨"user", ""⟩, ⟨"user", "later"⟩]) "Bearer abc"
      (by decide) (by decide)).1 (by decide)).2.2.1⟩

/-- C6, as the code has it. For every request that reaches the upstream call
and every upstream response whose code is not 200: the handler answers 500, the
JSON body has the one field `error`, and its string is `ZAI API error: `, then
the upstream message verbatim, then ` (code: `, the decimal code and `)`;
nothing is fetched and no frame is written. -/
theorem handleChatCompletions_upstream_error (rt : Runtime) (req : OpenAIRequest)
    (authHeader : String) (requests : List HTTPRequest) (zaiResp : ZAIResponse)
    (h1 : authHeader ≠ "") (h2 : ¬ (FindStringSubmatch authHeader).length < 2)
    (h3 : extractPrompt req.Messages ≠ "")
    (hup : upstreamCall rt req authHeader = (requests, .ok zaiResp))
    (hcode : zaiResp.Code ≠ 200) :
    (handleChatCompletions rt (.ok req) authHeader).status = 500 ∧
    (handleChatCompletions rt (.ok req) authHeader).json =
      some [("error", Value.str
        ("ZAI API error: " ++ zaiResp.Message ++ " (code: " ++ toString zaiResp.Code ++ ")"))] ∧
    (handleChatCompletions rt (.ok req) authHeader).fetched = [] ∧
    (handleChatCompletions rt (.ok req) authHeader).written = [] := by
  rw [handle_after_upstream rt req authHeader h1 h2 h3, hup]
  simp [hcode, errorReply]

/-- C6 at an upstream response with code 500 and message `boom`. -/
theorem handleChatCompletions_upstream_error_witness :
    (handleChatCompletions (sampleRuntime (.ok (sampleResponse 500 "boom" "")) (.ok []))
      (.ok (sampleRequest [⟨"user", "hello"⟩])) "Bearer abc").status = 500 ∧
    (handleChatCompletions (sampleRuntime (.ok (sampleResponse 500 "boom" "")) (.ok []))
      (.ok (sampleRequest [⟨"user", "hello"⟩])) "Bearer abc").json =
      some [("error", Value.str ("ZAI API error: " ++ "boom" ++ " (code: " ++
        toString (500 : Int) ++ ")"))] :=
  ⟨(handleChatCompletions_upstream_error
      (sampleRuntime (.ok (sampleResponse 500 "boom" "")) (.ok []))
      (sampleRequest [⟨"user", "hello"⟩]) "Bearer abc" _ (sampleResponse 500 "boom" "")
      (by decide) (by decide) (by decide) rfl (by decide)).1,
    (handleChatCompletions_upstream_error
      (sampleRuntime (.ok (sampleResponse 500 "boom" "")) (.ok []))
      (sampleRequest [⟨"user", "hello"⟩]) "Bearer abc" _ (sampleResponse 500 "boom" "")
      (by decide) (by decide) (by decide) rfl (by decide)).2.1⟩

/-- C6 as stated fails at an upstream response with code 500 and message
`boom`: the error string of the body is `ZAI API error: boom (code: 500)`, not
`boom (code: 500)`. -/
theorem handleChatCompletions_upstream_error_prefix :
    (sampleResponse 500 "boom" "").Code ≠ 200 ∧
    (handleChatCompletions (sampleRuntime (.ok (sampleResponse 500 "boom" "")) (.ok []))
      (.ok (sampleRequest [⟨"user", "hello"⟩])) "Bearer abc").json =
      some [("error", Value.str "ZAI API error: boom (code: 500)")] ∧
    (handleChatCompletions (sampleRuntime (.ok (sampleResponse 500 "boom" "")) (.ok []))
      (.ok (sampleRequest [⟨"user", "hello"⟩])) "Bearer abc").json ≠
      some [("error", Value.str ("boom" ++ " (code: " ++ toString (500 : Int) ++ ")"))] := by
  decide

/-- C7. For every request that reaches the upstream call: when the upstream
response has code 200 and an empty `image_url`, the handler answers 500 with
the error message exactly `No image URL in response`, fetches no image and
writes no frame. -/
theorem handleChatCompletions_no_image_url (rt : Runtime) (req : OpenAIRequest)
    (authHeader : String) (requests : List HTTPRequest) (zaiResp : ZAIResponse)
    (h1 : authHeader ≠ "") (h2 : ¬ (FindStringSubmatch authHeader).length < 2)
    (h3 : extractPrompt req.Messages ≠ "")
    (hup : upstreamCall rt req authHeader = (requests, .ok zaiResp))
    (hcode : zaiResp.Code = 200) (hurl : zaiResp.Data.Image.ImageURL = "") :
    (handleChatCompletions rt (.ok req) authHeader).status = 500 ∧
    (handleChatCompletions rt (.ok req) authHeader).json =
      some [("error", Value.str "No image URL in response")] ∧
    (handleChatCompletions rt (.ok req) authHeader).fetched = [] ∧
    (handleChatCompletions rt (.ok req) authHeader).written = [] := by
  rw [handle_after_upstream rt req authHeader h1 h2 h3, hup]
  simp [hcode, hurl, errorReply]

/-- C7 at an upstream response with code 200 and no image URL. -/
theorem handleChatCompletions_no_image_url_witness :
    (handleChatCompletions (sampleRuntime (.ok (sampleResponse 200 "ok" "")) (.ok []))
      (.ok (sampleRequest [⟨"user", "hello"⟩])) "Bearer abc").status = 500 ∧
    (handleChatCompletions (sampleRuntime (.ok (sampleResponse 200 "ok" "")) (.ok []))
      (.ok (sampleRequest [⟨"user", "hello"⟩])) "Bearer abc").json =
      some [("error", Value.str "No image URL in response")] ∧
    (handleChatCompletions (sampleRuntime (.ok (sampleResponse 200 "ok" "")) (.ok []))
      (.ok (sampleRequest [⟨"user", "hello"⟩])) "Bearer abc").fetched = [] ∧
    (handleChatCompletions (sampleRuntime (.ok (sampleResponse 200 "ok" "")) (.ok []))
      (.ok (sampleRequest [⟨"user", "hello"⟩])) "Bearer abc").written = [] :=
  handleChatCompletions_no_image_url
    (sampleRuntime (.ok (sampleResponse 200 "ok" "")) (.ok []))
    (sampleRequest [⟨"user", "hello"⟩]) "Bearer abc" _ (sampleResponse 200 "ok" "")
    (by decide) (by decide) (by decide) rfl (by decide) (by decide)

/-- C5. For every successful run (the body parses, the header is accepted, the
prompt is not empty, the upstream answers code 200 with a non-empty image URL,
the image is fetched with media type `m` and base64 payload `p`): the status is
200, there is no JSON error body, and exactly three strings are written, in
this order: `data: ` and the JSON of the chunk whose one choice has index 0,
delta `role: assistant`, `content: ![image](data:m;base64,p)` and a nil finish
reason; `data: ` and the JSON of the chunk whose one choice has an empty delta
and finish reason `stop`; `data: [DONE]`; each followed by two line feeds. Both
chunks have the id `chatcmpl-` followed by the clock reading, the same creation
time, the object `chat.completion.chunk` and the model name of the request. -/
theorem handleChatCompletions_success (rt : Runtime) (req : OpenAIRequest)
    (authHeader : String) (requests : List HTTPRequest) (zaiResp : ZAIResponse)
    (fetched : List String) (p m : String)
    (h1 : authHeader ≠ "") (h2 : ¬ (FindStringSubmatch authHeader).length < 2)
    (h3 : extractPrompt req.Messages ≠ "")
    (hup : upstreamCall rt req authHeader = (requests, .ok zaiResp))
    (hcode : zaiResp.Code = 200) (hurl : zaiResp.Data.Image.ImageURL ≠ "")
    (himg : imageToBase64 rt zaiResp.Data.Image.ImageURL = (fetched, .ok (p, m))) :
    (handleChatCompletions rt (.ok req) authHeader).status = 200 ∧
    (handleChatCompletions rt (.ok req) authHeader).json = none ∧
    (handleChatCompletions rt (.ok req) authHeader).written =
      [ "data: " ++ rt.marshalChunk
          { ID := "chatcmpl-" ++ toString rt.unixNano
            Object := "chat.completion.chunk"
            Created := rt.unix
            Model := req.Model
            Choices :=
              [ { Index := 0
                  Delta := [("role", Value.str "assistant"),
                    ("content", Value.str ("![image](data:" ++ m ++ ";base64," ++ p ++ ")"))]
                  FinishReason := none } ] } ++ "\n\n",
        "data: " ++ rt.marshalChunk
          { ID := "chatcmpl-" ++ toString rt.unixNano
            Object := "chat.completion.chunk"
            Created := rt.unix
            Model := req.Model
            Choices := [ { Index := 0, Delta := [], FinishReason := some "stop" } ] } ++ "\n\n",
        "data: [DONE]\n\n" ] := by
  rw [handle_after_upstream rt req authHeader h1 h2 h3, hup]
  simp only [hcode, hurl, himg, ne_eq, not_true_eq_false, if_false]
  exact ⟨trivial, trivial, rfl⟩

/-- C5 at a run with an upstream success and a three-byte image. -/
theorem handleChatCompletions_success_witness :
    (handleChatCompletions
      (sampleRuntime (.ok (sampleResponse 200 "ok" "https://image.z.ai/i.png")) (.ok [1, 2, 3]))
      (.ok (sampleRequest [⟨"user", "hello"⟩])) "Bearer abc").status = 200 ∧
    (handleChatCompletions
      (sampleRuntime (.ok (sampleResponse 200 "ok" "https://image.z.ai/i.png")) (.ok [1, 2, 3]))
      (.ok (sampleRequest [⟨"user", "hello"⟩])) "Bearer abc").written.length = 3 ∧
    (handleChatCompletions
      (sampleRuntime (.ok (sampleResponse 200 "ok" "https://image.z.ai/i.png")) (.ok [1, 2, 3]))
      (.ok (sampleRequest [⟨"user", "hello"⟩])) "Bearer abc").written.getLast? =
      some "data: [DONE]\n\n" :=
  have h := handleChatCompletions_success
    (sampleRuntime (.ok (sampleResponse 200 "ok" "https://image.z.ai/i.png")) (.ok [1, 2, 3]))
    (sampleRequest [⟨"user", "hello"⟩]) "Bearer abc" _
    (sampleResponse 200 "ok" "https://image.z.ai/i.png") ["https://image.z.ai/i.png"]
    "123" "image/png"
    (by decide) (by decide) (by decide) rfl (by decide) (by decide) rfl
  ⟨h.1, by rw [h.2.2]; rfl, by rw [h.2.2]; rfl⟩

/-! ## The model catalogue -/

/-- The loop answers with the first entry whose `id` is the identifier asked
for, and with 404 when no entry has it. -/
theorem getModelLoop_cases (modelID : String) (entries : List H) :
    (∃ m ∈ entries, m.get "id" = some (Value.str modelID) ∧
        getModelLoop modelID entries =
          { status := 200, json := some m, header := [], written := [], requests := [],
            fetched := [] }) ∨
    ((∀ m ∈ entries, m.get "id" ≠ some (Value.str modelID)) ∧
        getModelLoop modelID entries =
          { status := 404, json := some [("error", Value.str "Model not found")],
            header := [], written := [], requests := [], fetched := [] }) := by
  induction entries with
  | nil => right; exact ⟨by simp, rfl⟩
  | cons m rest ih =>
    by_cases hm : m.get "id" = some (Value.str modelID)
    · left
      exact ⟨m, List.mem_cons_self _ _, hm, by simp [getModelLoop, hm]⟩
    · rcases ih with ⟨m', hmem, hid, hres⟩ | ⟨hall, hres⟩
      · left
        exact ⟨m', List.mem_cons_of_mem _ hmem, hid, by simp [getModelLoop, hm, hres]⟩
      · right
        refine ⟨?_, by simp [getModelLoop, hm, hres]⟩
        intro x hx
        rcases List.mem_cons.mp hx with rfl | hx
        · exact hm
        · exact hall x hx

theorem modelList_objects : ∀ m ∈ modelList, m.get "object" = some (Value.str "model") := by
  decide

/-- C9. For every identifier: when some entry of `modelList` has exactly that
string under `id`, `handleGetModel` answers 200 with an entry of the list whose
`id` is the identifier and whose `object` is `model`; otherwise it answers 404
with the body `error: Model not found`. -/
theorem handleGetModel_lookup (modelID : String) :
    ((∃ m ∈ modelList, m.get "id" = some (Value.str modelID)) →
        (handleGetModel modelID).status = 200 ∧
        ∃ m ∈ modelList, (handleGetModel modelID).json = some m ∧
          m.get "id" = some (Value.str modelID) ∧
          m.get "object" = some (Value.str "model")) ∧
    ((¬ ∃ m ∈ modelList, m.get "id" = some (Value.str modelID)) →
        (handleGetModel modelID).status = 404 ∧
        (handleGetModel modelID).json = some [("error", Value.str "Model not found")]) := by
  unfold handleGetModel
  rcases getModelLoop_cases modelID modelList with ⟨m, hmem, hid, hres⟩ | ⟨hall, hres⟩
  · constructor
    · intro _
      rw [hres]
      exact ⟨rfl, m, hmem, rfl, hid, modelList_objects m hmem⟩
    · intro hno
      exact absurd ⟨m, hmem, hid⟩ hno
  · constructor
    · rintro ⟨m, hmem, hid⟩
      exact absurd hid (hall m hmem)
    · intro _
      rw [hres]
      exact ⟨rfl, rfl⟩

/-- C9 at an advertised identifier, at the unknown identifier of the
specification and at an advertised identifier spelled with a capital letter. -/
theorem handleGetModel_lookup_witness :
    (handleGetModel "gemini-3-pro-image-2k-9-16").status = 200 ∧
    (handleGetModel "unknown-id").status = 404 ∧
    (handleGetModel "unknown-id").json = some [("error", Value.str "Model not found")] ∧
    (handleGetModel "Gemini-3-pro-image-2k-9-16").status = 404 :=
  ⟨((handleGetModel_lookup "gemini-3-pro-image-2k-9-16").1
      ⟨modelEntry "gemini-3-pro-image-2k-9-16", by decide, by decide⟩).1,
    ((handleGetModel_lookup "unknown-id").2 (by decide)).1,
    ((handleGetModel_lookup "unknown-id").2 (by decide)).2,
    ((handleGetModel_lookup "Gemini-3-pro-image-2k-9-16").2 (by decide)).1⟩

/-! ## The catalogue through `parseModel` -/

/-- On a string of ASCII characters the case table plays no part. -/
theorem toLower_ascii (caseTable : Char → Char) (s : String)
    (h : ∀ c ∈ s.data, c.toNat ≤ 0x7F) : ToLower caseTable s = ToLower id s := by
  unfold ToLower
  congr 1
  apply List.map_congr_left
  intro c hc
  simp [unicodeToLower, h c hc]

theorem parseModel_ascii (caseTable : Char → Char) (order : List (String × String))
    (hperm : order.Perm ratioMap) (model : String) (h : ∀ c ∈ model.data, c.toNat ≤ 0x7F) :
    parseModel caseTable order model = parseModel id ratioMap model := by
  simp only [parseModel, toLower_ascii caseTable model h]
  rw [ratioLoop_order_irrelevant (ToLower id model) order ratioMap hperm (List.Perm.refl _)]

theorem catalogIDs_ascii : ∀ name ∈ catalogIDs, ∀ c ∈ name.data, c.toNat ≤ 0x7F := by
  decide

theorem catalogIDs_spelled : ∀ name ∈ catalogIDs,
      (Contains name "-1k" = true → (parseModel id ratioMap name).1 = "1K") ∧
      (Contains name "-2k" = true → (parseModel id ratioMap name).1 = "2K") ∧
      (Contains name "-1k" = true ∨ Contains name "-2k" = true) ∧
      (∀ e ∈ ratioMap, HasSuffix name e.1 = true → (parseModel id ratioMap name).2 = e.2) ∧
      ((∀ e ∈ ratioMap, HasSuffix name e.1 = false) → (parseModel id ratioMap name).2 = "21:9") ∧
      ((∀ e ∈ ratioMap, HasSuffix name e.1 = false) ↔
        (name = "gemini-3-pro-image-1k" ∨ name = "gemini-3-pro-image-2k")) ∧
      (parseModel id ratioMap name).1 ∈ ["1K", "2K"] ∧
      (parseModel id ratioMap name).2 ∈ ["1:1", "3:4", "4:3", "16:9", "9:16", "21:9", "9:21"] := by
  decide

/-- C10. Whatever the case table and the order of the visit of `ratioMap`:
`modelList` advertises 16 identifiers, pairwise distinct; `parseModel` decodes
them, in the order of the list, to the pairs written out below; and for each of
them the decoded pair is what the name spells: `1K` when the name contains
`-1k`, `2K` when it contains `-2k` (one of the two always occurs), the table
ratio of the marker the name ends with, `21:9` for the two names that end with
no marker, which are `gemini-3-pro-image-1k` and `gemini-3-pro-image-2k`; and
the pair lies in the two resolutions times the seven ratios. -/
theorem parseModel_catalog (caseTable : Char → Char) (order : List (String × String))
    (hperm : order.Perm ratioMap) :
    catalogIDs.length = 16 ∧ modelList.length = 16 ∧ catalogIDs.Nodup ∧
    catalogIDs.map (parseModel caseTable order) =
      [ ("1K", "21:9"), ("2K", "21:9"),
        ("1K", "1:1"), ("1K", "3:4"), ("1K", "4:3"), ("1K", "16:9"), ("1K", "9:16"),
        ("1K", "21:9"), ("1K", "9:21"),
        ("2K", "1:1"), ("2K", "3:4"), ("2K", "4:3"), ("2K", "16:9"), ("2K", "9:16"),
        ("2K", "21:9"), ("2K", "9:21") ] ∧
    ∀ name ∈ catalogIDs,
      (Contains name "-1k" = true → (parseModel caseTable order name).1 = "1K") ∧
      (Contains name "-2k" = true → (parseModel caseTable order name).1 = "2K") ∧
      (Contains name "-1k" = true ∨ Contains name "-2k" = true) ∧
      (∀ e ∈ ratioMap, HasSuffix name e.1 = true → (parseModel caseTable order name).2 = e.2) ∧
      ((∀ e ∈ ratioMap, HasSuffix name e.1 = false) → (parseModel caseTable order name).2 = "21:9") ∧
      ((∀ e ∈ ratioMap, HasSuffix name e.1 = false) ↔
        (name = "gemini-3-pro-image-1k" ∨ name = "gemini-3-pro-image-2k")) ∧
      (parseModel caseTable order name).1 ∈ ["1K", "2K"] ∧
      (parseModel caseTable order name).2 ∈ ["1:1", "3:4", "4:3", "16:9", "9:16", "21:9", "9:21"] := by
  have hpm : ∀ name ∈ catalogIDs, parseModel caseTable order name = parseModel id ratioMap name :=
    fun name hn => parseModel_ascii caseTable order hperm name (catalogIDs_ascii name hn)
  refine ⟨by decide, by decide, by decide, ?_, ?_⟩
  · rw [List.map_congr_left hpm]
    decide
  · intro name hn
    rw [hpm name hn]
    exact catalogIDs_spelled name hn

/-- C10 with the table visited in reverse order. -/
theorem parseModel_catalog_witness :
    ratioMap.reverse.Perm ratioMap ∧
    catalogIDs.Nodup ∧
    ∀ name ∈ catalogIDs,
      (Contains name "-1k" = true → (parseModel kelvinCaseTable ratioMap.reverse name).1 = "1K") ∧
      (Contains name "-2k" = true → (parseModel kelvinCaseTable ratioMap.reverse name).1 = "2K") ∧
      (Contains name "-1k" = true ∨ Contains name "-2k" = true) ∧
      (∀ e ∈ ratioMap, HasSuffix name e.1 = true → (parseModel kelvinCaseTable ratioMap.reverse name).2 = e.2) ∧
      ((∀ e ∈ ratioMap, HasSuffix name e.1 = false) → (parseModel kelvinCaseTable ratioMap.reverse name).2 = "21:9") ∧
      ((∀ e ∈ ratioMap, HasSuffix name e.1 = false) ↔
        (name = "gemini-3-pro-image-1k" ∨ name = "gemini-3-pro-image-2k")) ∧
      (parseModel kelvinCaseTable ratioMap.reverse name).1 ∈ ["1K", "2K"] ∧
      (parseModel kelvinCaseTable ratioMap.reverse name).2 ∈ ["1:1", "3:4", "4:3", "16:9", "9:16", "21:9", "9:21"] :=
  ⟨List.reverse_perm _,
    (parseModel_catalog kelvinCaseTable ratioMap.reverse (List.reverse_perm _)).2.2.1,
    (parseModel_catalog kelvinCaseTable ratioMap.reverse (List.reverse_perm _)).2.2.2.2⟩

end Image
